import Mathlib

/-!
Shallow embedding of `src/packages/ipfs/src/core/components/add-all/index.js`
(the `addAll` streaming ingestion pipeline of js-ipfs) together with theorems
settling the behavioural claims about it.

The embedding follows the JavaScript source line by line:
* `Cid` models a content identifier with a version and an abstract payload;
  `Cid.toV1` models `cid.toV1()` and `Cid.toString` its string form.
* `ImportedNode` and `OutputEntry` mirror the importer's output records and
  the entries `addAll` yields.
* `AddOptions` mirrors the caller-supplied options object (JavaScript
  `undefined`/`null` become `none`, truthiness of optional strings follows
  the JavaScript rules), `Opts` mirrors the finalized options object built at
  the top of `addAll`, and `finalizeOpts` mirrors the merge, chunker
  resolution, CID-version invariant, trickle handling and trickle deletion in
  lines 66-92 of the source.
* `transformOne`/`transformFile` embed `transformFile`, and
  `preloadFileTrace`/`pinFileTrace` embed `preloadFile`/`pinFile` as
  functions producing the ordered trace of collaborator calls and yields.
* `addAllRun` embeds the generator body of `addAll` (lines 94-112): the
  options finalization, the single `gcLock.readLock()` acquisition, the
  `yield *` loop, and the `finally { releaseLock() }` discipline, as a trace
  of events over an abstract pipeline outcome and a consumer that pulls a
  given number of entries.
-/

/-- Content identifier: a version (0 or 1 in practice) plus an abstract
payload standing for the multihash/codec content. `toV1` re-encodes at
version 1 leaving the payload unchanged, as `cid.toV1()` does. -/
structure Cid where
  version : Nat
  payload : String
deriving DecidableEq, Repr

def Cid.toV1 (c : Cid) : Cid :=
  { c with version := 1 }

/-- Model of `cid.toString()`: a string form determined by the version and
the payload. -/
def Cid.toString (c : Cid) : String :=
  "cid-v" ++ Nat.repr c.version ++ "-" ++ c.payload

/-- UnixFS metadata optionally carried by an imported node
(`file.unixfs.mode` / `file.unixfs.mtime`). -/
structure UnixfsMeta where
  mode : Option Nat
  mtime : Option Nat
deriving DecidableEq, Repr

/-- A record produced by the external importer: `{ cid, path, size, unixfs }`.
An unnamed root carries the empty path, as in the source. -/
structure ImportedNode where
  cid : Cid
  path : String
  size : Nat
  unixfs : Option UnixfsMeta
deriving DecidableEq, Repr

/-- An entry yielded by `addAll` to the caller (the object literal built in
`transformFile`). -/
structure OutputEntry where
  path : String
  cid : Cid
  size : Nat
  mode : Option Nat
  mtime : Option Nat
deriving DecidableEq, Repr

/-- The structured chunker descriptor produced by chunker-string resolution:
either a fixed-size chunker with a maximum chunk size or a rabin chunker
with minimum/average/maximum chunk sizes. -/
inductive ChunkerDesc
  | fixed (maxChunkSize : Nat)
  | rabin (minChunkSize avgChunkSize maxChunkSize : Nat)
deriving DecidableEq, Repr

/-- Modelled from the spec: the Chunker-Option Resolver `parseChunkerString`
is required from `./utils`, which is not part of the sources; per the spec it
is a pure function that, given a chunker spec string (or absent), returns a
structured descriptor (algorithm identifier plus size parameters) and fails
with an `InvalidChunkerSpec` error on malformed syntax, the default chunker
being `size-262144`. -/
def listStartsWith : List Char → List Char → Bool
  | [], _ => true
  | _ :: _, [] => false
  | p :: ps, c :: cs => p == c && listStartsWith ps cs

/-- Digit parsing of a chunker size parameter (the model of `parseInt` on a
decimal string): all characters must be digits and at least one must be
present. -/
def digitsToNatAux : List Char → Nat → Option Nat
  | [], acc => some acc
  | c :: rest, acc =>
    if c.isDigit then digitsToNatAux rest (acc * 10 + (c.toNat - 48)) else none

def digitsToNat? : List Char → Option Nat
  | [] => none
  | cs => digitsToNatAux cs 0

/-- Splitting a parameter list on the dash separator. -/
def splitOnDash : List Char → List (List Char)
  | [] => [[]]
  | c :: rest =>
    if c = '-' then [] :: splitOnDash rest
    else
      match splitOnDash rest with
      | [] => [[c]]
      | g :: gs => (c :: g) :: gs

def specHeadSize : List Char := ['s', 'i', 'z', 'e', '-']

def specHeadRabin : List Char := ['r', 'a', 'b', 'i', 'n']

def specHeadRabinDash : List Char := ['r', 'a', 'b', 'i', 'n', '-']

def parseChunkerString : Option String → Except String ChunkerDesc
  | none => .ok (.fixed 262144)
  | some s =>
    let cs := s.toList
    if listStartsWith specHeadSize cs then
      match digitsToNat? (cs.drop 5) with
      | some n => .ok (.fixed n)
      | none => .error "InvalidChunkerSpec"
    else if cs = specHeadRabin then
      .ok (.rabin 131072 262144 524288)
    else if listStartsWith specHeadRabinDash cs then
      match (splitOnDash (cs.drop 6)).mapM digitsToNat? with
      | some [avg] => .ok (.rabin (avg / 2) avg (avg * 2))
      | some [mn, av, mx] => .ok (.rabin mn av mx)
      | _ => .error "InvalidChunkerSpec"
    else
      .error "InvalidChunkerSpec"

/-- The caller-supplied options object of `addAll`. JavaScript `undefined`
(and `null`, for `pin`) is `none`; `onlyHash`, `trickle`, `rawLeaves` and
`wrapWithDirectory` are documented booleans defaulting to false; `strategy`
is any strategy field the caller may have put in the object (it is spread
into `opts` and then overwritten); `progress` records whether a progress
callback was supplied (its truthiness is all `addAll` tests). -/
structure AddOptions where
  chunker : Option String := none
  cidVersion : Option Nat := none
  hashAlg : Option String := none
  onlyHash : Bool := false
  pin : Option Bool := none
  rawLeaves : Bool := false
  shardSplitThreshold : Option Nat := none
  trickle : Bool := false
  wrapWithDirectory : Bool := false
  preload : Option Bool := none
  strategy : Option String := none
  progress : Bool := false
deriving DecidableEq, Repr

/-- The finalized options object `opts` built at the top of `addAll` and
passed to the pipeline stages. `shardSplitThreshold = none` stands for the
JavaScript `Infinity`; after `delete opts.trickle` the `trickle` field is
absent, i.e. `none`. -/
structure Opts where
  shardSplitThreshold : Option Nat
  cidVersion : Option Nat
  hashAlg : Option String
  onlyHash : Bool
  pin : Option Bool
  rawLeaves : Bool
  wrapWithDirectory : Bool
  preload : Option Bool
  progress : Bool
  strategy : String
  trickle : Option Bool
  chunker : ChunkerDesc
deriving DecidableEq, Repr

/-- JavaScript truthiness of an optional string option: present and not the
empty string. -/
def hashAlgTruthy : Option String → Bool
  | none => false
  | some s => !(s == "")

/-- Lines 66-92 of `addAll`: build `opts` by merging the default
`shardSplitThreshold` (1000 when the sharding experiment is enabled,
`Infinity` otherwise) under the caller's options, setting
`strategy: 'balanced'` after the spread (so a caller-supplied strategy is
overwritten), mixing in the chunker descriptor, forcing `cidVersion` to 1
when a truthy non-default `hashAlg` is requested and `cidVersion` is not
strictly 1, overriding the strategy to `'trickle'` when `opts.trickle` is
truthy, and finally deleting the `trickle` field. A malformed chunker string
makes the whole finalization fail before anything else happens. -/
def finalizeOpts (isShardingEnabled : Bool) (options : AddOptions) : Except String Opts :=
  match parseChunkerString options.chunker with
  | .error e => .error e
  | .ok desc =>
    let shardSplitThreshold :=
      match options.shardSplitThreshold with
      | some n => some n
      | none => if isShardingEnabled then some 1000 else none
    let cidVersion :=
      if hashAlgTruthy options.hashAlg && options.hashAlg != some "sha2-256"
          && options.cidVersion != some 1 then
        some 1
      else
        options.cidVersion
    let strategyBalanced := "balanced"
    let strategy := if options.trickle then "trickle" else strategyBalanced
    .ok
      { shardSplitThreshold
        cidVersion
        hashAlg := options.hashAlg
        onlyHash := options.onlyHash
        pin := options.pin
        rawLeaves := options.rawLeaves
        wrapWithDirectory := options.wrapWithDirectory
        preload := options.preload
        progress := options.progress
        strategy
        trickle := none
        chunker := desc }

/-- The body of `transformFile` for one imported node: adjust the CID to
version 1 when `opts.cidVersion === 1`, derive the path (a truthy, i.e.
non-empty, node path is kept; otherwise the string form of the adjusted CID;
overridden to the empty string when `opts.wrapWithDirectory` is set and the
node path is falsy), and project size/mode/mtime. -/
def transformOne (opts : Opts) (file : ImportedNode) : OutputEntry :=
  let cid := if opts.cidVersion == some 1 then file.cid.toV1 else file.cid
  let path0 := if !(file.path == "") then file.path else cid.toString
  let path := if opts.wrapWithDirectory && file.path == "" then "" else path0
  { path
    cid
    size := file.size
    mode := file.unixfs.bind (fun u => u.mode)
    mtime := file.unixfs.bind (fun u => u.mtime) }

/-- The `transformFile` stage over a whole source sequence. -/
def transformFile (opts : Opts) (source : List ImportedNode) : List OutputEntry :=
  source.map (transformOne opts)

/-- An event in the trace of a pipeline stage: a fire-and-forget call of the
`preload` collaborator, a call of `pin.add` with its `preload` and `lock`
option values, or the yielding of an entry onward. -/
inductive StreamEvent
  | preloadCall (cid : Cid)
  | pinCall (cid : Cid) (preload lock : Bool)
  | yieldEntry (e : OutputEntry)
deriving DecidableEq, Repr

/-- The entries a stage yields, read off its trace. -/
def entriesOf (t : List StreamEvent) : List OutputEntry :=
  t.filterMap (fun ev =>
    match ev with
    | .yieldEntry e => some e
    | _ => none)

/-- The root test of `preloadFile` (line 146):
`!file.path || opts.wrapWithDirectory ? file.path === '' : !file.path.includes('/')`
with the conditional-expression condition being the disjunction;
`path.includes('/')` is modelled as membership of the slash character in the
path's character sequence. -/
def isRootFile (opts : Opts) (file : OutputEntry) : Bool :=
  if file.path == "" || opts.wrapWithDirectory then file.path == ""
  else !(file.path.toList.contains '/')

/-- Line 150: preload a root entry unless in hash-only mode or preloading is
strictly `false`. -/
def shouldPreload (opts : Opts) (file : OutputEntry) : Bool :=
  isRootFile opts file && !opts.onlyHash && !(opts.preload == some false)

/-- The `preloadFile` stage as a trace: for each entry, fire the preload call
when `shouldPreload`, then yield the entry. -/
def preloadFileTrace (opts : Opts) : List OutputEntry → List StreamEvent
  | [] => []
  | f :: fs =>
    (if shouldPreload opts f then [StreamEvent.preloadCall f.cid] else [])
      ++ StreamEvent.yieldEntry f :: preloadFileTrace opts fs

/-- The `preloadFile` stage run against a preload collaborator with explicit
outcomes: `failing c = true` means the preload of `c` fails. The stage fires
the call, records the call and its outcome, and yields the entry without
awaiting the outcome — exactly as the source calls `preload(file.cid)`
without `await` and discards its result. Returns the list of (cid, failed)
call records and the list of yielded entries. -/
def preloadFileRun (failing : Cid → Bool) (opts : Opts) :
    List OutputEntry → List (Cid × Bool) × List OutputEntry
  | [] => ([], [])
  | f :: fs =>
    let rest := preloadFileRun failing opts fs
    if shouldPreload opts f then
      ((f.cid, failing f.cid) :: rest.1, f :: rest.2)
    else
      (rest.1, f :: rest.2)

/-- The root test of `pinFile` (line 166): the path contains no separator. -/
def isRootDir (file : OutputEntry) : Bool :=
  !(file.path.toList.contains '/')

/-- Line 167: `(opts.pin == null ? true : opts.pin) && isRootDir && !opts.onlyHash`. -/
def shouldPin (opts : Opts) (file : OutputEntry) : Bool :=
  (match opts.pin with
   | none => true
   | some b => b) && isRootDir file && !opts.onlyHash

/-- The `pinFile` stage as a trace: for each entry, when `shouldPin` holds,
call `pin.add(file.cid, { preload: false, lock: false })` and await it, then
yield the entry. The pin call event immediately precedes the entry's yield
event, reflecting that the pin is awaited before the yield. -/
def pinFileTrace (opts : Opts) : List OutputEntry → List StreamEvent
  | [] => []
  | f :: fs =>
    (if shouldPin opts f then [StreamEvent.pinCall f.cid false false] else [])
      ++ StreamEvent.yieldEntry f :: pinFileTrace opts fs

/-- The entries the whole pipeline yields to the caller, for a given importer
output: `transformFile`, then the preload stage, then the pin stage. -/
def addAllEntries (opts : Opts) (files : List ImportedNode) : List OutputEntry :=
  entriesOf (pinFileTrace opts (entriesOf (preloadFileTrace opts (transformFile opts files))))

/-- The entries the whole pipeline yields when the preload collaborator has
the given failure behaviour. -/
def addAllEntriesWithPreload (failing : Cid → Bool) (opts : Opts)
    (files : List ImportedNode) : List OutputEntry :=
  entriesOf (pinFileTrace opts ((preloadFileRun failing opts (transformFile opts files)).2))

/-- An event in the trace of one `addAll` invocation: the `gcLock.readLock()`
acquisition, the call of the release function it returned, an entry yielded
to the caller, or an error propagating out. -/
inductive AddEvent
  | lockAcquire
  | lockRelease
  | yieldEntry (e : OutputEntry)
  | errorRaised
deriving DecidableEq, Repr

/-- The abstract outcome of driving the pipeline: the entries it produces in
order, and whether a stage raises an error after those entries. -/
structure PipelineOutcome where
  entries : List OutputEntry
  raisesError : Bool
deriving DecidableEq, Repr

def countAcquires : List AddEvent → Nat
  | [] => 0
  | .lockAcquire :: t => countAcquires t + 1
  | _ :: t => countAcquires t

def countReleases : List AddEvent → Nat
  | [] => 0
  | .lockRelease :: t => countReleases t + 1
  | _ :: t => countReleases t

/-- The generator body of `addAll` (lines 63-112) as an event trace. The
options are finalized first; a finalization failure (malformed chunker
string) raises before the lock is touched. Otherwise the read lock is
acquired once, the consumer pulls up to `consumed` entries from the lazy
pipeline (`yield * iterator`), an error raised by a stage is observed only
if the consumer pulls past the entries produced before it, and the
`finally` block calls the release function exactly once on the way out —
on exhaustion, on early abandonment and on error alike. -/
def addAllRun (isShardingEnabled : Bool) (options : AddOptions)
    (pipe : PipelineOutcome) (consumed : Nat) : List AddEvent :=
  match finalizeOpts isShardingEnabled options with
  | .error _ => [.errorRaised]
  | .ok _ =>
    let yielded := pipe.entries.take consumed
    let hitsError := pipe.raisesError && decide (pipe.entries.length < consumed)
    (AddEvent.lockAcquire :: (yielded.map AddEvent.yieldEntry
        ++ (if hitsError then [AddEvent.errorRaised] else [])))
      ++ [AddEvent.lockRelease]

/-- Line 84-92: the progress accumulator. Given the running total so far and
the byte counts of the remaining importer progress events, return the values
passed to the original callback: each event adds its bytes to the total and
reports the new total. -/
def progressAccumulate (total : Nat) : List Nat → List Nat
  | [] => []
  | bytes :: rest => (total + bytes) :: progressAccumulate (total + bytes) rest

/-! Helper lemmas shared by the claim theorems. -/

theorem entriesOf_append (a b : List StreamEvent) :
    entriesOf (a ++ b) = entriesOf a ++ entriesOf b := by
  simp [entriesOf]

theorem entriesOf_preloadFileTrace (opts : Opts) (s : List OutputEntry) :
    entriesOf (preloadFileTrace opts s) = s := by
  induction s with
  | nil => rfl
  | cons f fs ih =>
    cases hb : shouldPreload opts f <;>
      simp [preloadFileTrace, entriesOf, hb] <;>
      simpa [entriesOf] using ih

theorem entriesOf_pinFileTrace (opts : Opts) (s : List OutputEntry) :
    entriesOf (pinFileTrace opts s) = s := by
  induction s with
  | nil => rfl
  | cons f fs ih =>
    cases hb : shouldPin opts f <;>
      simp [pinFileTrace, entriesOf, hb] <;>
      simpa [entriesOf] using ih

theorem preloadFileRun_entries (failing : Cid → Bool) (opts : Opts)
    (s : List OutputEntry) : (preloadFileRun failing opts s).2 = s := by
  induction s with
  | nil => rfl
  | cons f fs ih =>
    cases hb : shouldPreload opts f <;> simp [preloadFileRun, hb, ih]

theorem countAcquires_append (a b : List AddEvent) :
    countAcquires (a ++ b) = countAcquires a + countAcquires b := by
  induction a with
  | nil => simp [countAcquires]
  | cons x t ih => cases x <;> simp [countAcquires, ih, Nat.add_right_comm]

theorem countReleases_append (a b : List AddEvent) :
    countReleases (a ++ b) = countReleases a + countReleases b := by
  induction a with
  | nil => simp [countReleases]
  | cons x t ih => cases x <;> simp [countReleases, ih, Nat.add_right_comm]

theorem countAcquires_map_yield (l : List OutputEntry) :
    countAcquires (l.map AddEvent.yieldEntry) = 0 := by
  induction l with
  | nil => rfl
  | cons x t ih => simpa [countAcquires] using ih

theorem countAcquires_take_map (n : Nat) (l : List OutputEntry) :
    countAcquires ((l.map AddEvent.yieldEntry).take n) = 0 := by
  induction l generalizing n with
  | nil => simp [countAcquires]
  | cons x t ih =>
    cases n with
    | zero => rfl
    | succ m => simpa [countAcquires] using ih m

theorem countReleases_map_yield (l : List OutputEntry) :
    countReleases (l.map AddEvent.yieldEntry) = 0 := by
  induction l with
  | nil => rfl
  | cons x t ih => simpa [countReleases] using ih

theorem countReleases_take_map (n : Nat) (l : List OutputEntry) :
    countReleases ((l.map AddEvent.yieldEntry).take n) = 0 := by
  induction l generalizing n with
  | nil => simp [countReleases]
  | cons x t ih =>
    cases n with
    | zero => rfl
    | succ m => simpa [countReleases] using ih m

/-- Field values of a successfully finalized options object, in terms of the
caller's options. -/
theorem finalizeOpts_ok_fields (sh : Bool) (options : AddOptions) (opts : Opts)
    (h : finalizeOpts sh options = .ok opts) :
    opts.cidVersion
        = (if hashAlgTruthy options.hashAlg && options.hashAlg != some "sha2-256"
              && options.cidVersion != some 1 then some 1 else options.cidVersion) ∧
    opts.strategy = (if options.trickle then "trickle" else "balanced") ∧
    opts.trickle = none ∧
    opts.onlyHash = options.onlyHash ∧
    opts.pin = options.pin ∧
    opts.preload = options.preload ∧
    opts.wrapWithDirectory = options.wrapWithDirectory := by
  unfold finalizeOpts at h
  cases hp : parseChunkerString options.chunker with
  | error e =>
    rw [hp] at h
    exact absurd h (by simp)
  | ok desc =>
    rw [hp] at h
    simp only [Except.ok.injEq] at h
    subst h
    refine ⟨rfl, rfl, rfl, rfl, rfl, rfl, rfl⟩

/-- Finalization never reads a caller-supplied strategy field. -/
theorem finalizeOpts_ignores_strategy (sh : Bool) (options : AddOptions)
    (s : Option String) :
    finalizeOpts sh { options with strategy := s } = finalizeOpts sh options := rfl

theorem progressAccumulate_length (t : Nat) (bs : List Nat) :
    (progressAccumulate t bs).length = bs.length := by
  induction bs generalizing t with
  | nil => rfl
  | cons b rest ih => simp [progressAccumulate, ih]

theorem progressAccumulate_getD (t : Nat) (bs : List Nat) (i : Nat)
    (h : i < bs.length) :
    (progressAccumulate t bs).getD i 0 = t + (bs.take (i + 1)).sum := by
  induction bs generalizing t i with
  | nil => simp at h
  | cons b rest ih =>
    cases i with
    | zero => simp [progressAccumulate]
    | succ j =>
      have hj : j < rest.length := by simpa using h
      have := ih (t + b) j hj
      simp only [progressAccumulate, List.getD_cons_succ, this, List.take_succ_cons,
        List.sum_cons]
      omega

/-- Reduction of `addAllRun` when options finalization succeeds. -/
theorem addAllRun_ok (sh : Bool) (options : AddOptions) (opts : Opts)
    (pipe : PipelineOutcome) (consumed : Nat)
    (h : finalizeOpts sh options = .ok opts) :
    addAllRun sh options pipe consumed
      = (AddEvent.lockAcquire :: ((pipe.entries.take consumed).map AddEvent.yieldEntry
          ++ (if pipe.raisesError && decide (pipe.entries.length < consumed)
              then [AddEvent.errorRaised] else [])))
        ++ [AddEvent.lockRelease] := by
  unfold addAllRun
  rw [h]

/-- Reduction of `addAllRun` when options finalization fails. -/
theorem addAllRun_error (sh : Bool) (options : AddOptions) (e : String)
    (pipe : PipelineOutcome) (consumed : Nat)
    (h : finalizeOpts sh options = .error e) :
    addAllRun sh options pipe consumed = [AddEvent.errorRaised] := by
  unfold addAllRun
  rw [h]

def pinCallCount : List StreamEvent → Nat
  | [] => 0
  | .pinCall _ _ _ :: t => pinCallCount t + 1
  | _ :: t => pinCallCount t

def preloadCallCount : List StreamEvent → Nat
  | [] => 0
  | .preloadCall _ :: t => preloadCallCount t + 1
  | _ :: t => preloadCallCount t

theorem pinCallCount_zero (opts : Opts) (s : List OutputEntry)
    (h : ∀ f, shouldPin opts f = false) : pinCallCount (pinFileTrace opts s) = 0 := by
  induction s with
  | nil => rfl
  | cons f fs ih => simp [pinFileTrace, h f, pinCallCount, ih]

theorem preloadCallCount_zero (opts : Opts) (s : List OutputEntry)
    (h : ∀ f, shouldPreload opts f = false) :
    preloadCallCount (preloadFileTrace opts s) = 0 := by
  induction s with
  | nil => rfl
  | cons f fs ih => simp [preloadFileTrace, h f, preloadCallCount, ih]

/-- C1: every `addAll` invocation that reaches the pipeline (its options
finalize successfully) acquires the read lock exactly once and calls the
release function returned by `gcLock.readLock()` exactly once, on every exit
path — whether the consumer drains the output to exhaustion (`consumed` at
least the number of entries), abandons it after any prefix, or a pipeline
stage raises an error — and the release is the final event of the
invocation. -/
theorem addAll_lock_exactly_once (sh : Bool) (options : AddOptions) (opts : Opts)
    (pipe : PipelineOutcome) (consumed : Nat)
    (h : finalizeOpts sh options = .ok opts) :
    countAcquires (addAllRun sh options pipe consumed) = 1 ∧
    countReleases (addAllRun sh options pipe consumed) = 1 ∧
    (addAllRun sh options pipe consumed).getLast? = some AddEvent.lockRelease := by
  rw [addAllRun_ok sh options opts pipe consumed h]
  refine ⟨?_, ?_, List.getLast?_concat _⟩
  · cases hE : pipe.raisesError && decide (pipe.entries.length < consumed) <;>
      simp [hE, countAcquires_append, countAcquires, countAcquires_map_yield,
        countAcquires_take_map]
  · cases hE : pipe.raisesError && decide (pipe.entries.length < consumed) <;>
      simp [hE, countReleases_append, countReleases, countReleases_map_yield,
        countReleases_take_map]

def defaultOpts : Opts :=
  { shardSplitThreshold := none, cidVersion := none, hashAlg := none, onlyHash := false,
    pin := none, rawLeaves := false, wrapWithDirectory := false, preload := none,
    progress := false, strategy := "balanced", trickle := none, chunker := .fixed 262144 }

def sampleEntry : OutputEntry :=
  { path := "", cid := { version := 0, payload := "qm" }, size := 1, mode := none, mtime := none }

theorem addAll_lock_exactly_once_witness :
    countAcquires (addAllRun false {} ⟨[sampleEntry], true⟩ 2) = 1 ∧
    countReleases (addAllRun false {} ⟨[sampleEntry], true⟩ 2) = 1 ∧
    (addAllRun false {} ⟨[sampleEntry], true⟩ 2).getLast? = some AddEvent.lockRelease :=
  addAll_lock_exactly_once false {} defaultOpts ⟨[sampleEntry], true⟩ 2 rfl

/-- C7: an invocation whose chunker option string is malformed (its
resolution fails) raises the `InvalidChunkerSpec` error before the read lock
is touched: the run is just the error event and the lock-acquisition count
is zero. -/
theorem chunker_error_fails_before_lock (sh : Bool) (options : AddOptions)
    (pipe : PipelineOutcome) (consumed : Nat) (e : String)
    (h : parseChunkerString options.chunker = .error e) :
    addAllRun sh options pipe consumed = [AddEvent.errorRaised] ∧
    countAcquires (addAllRun sh options pipe consumed) = 0 := by
  have hf : finalizeOpts sh options = .error e := by
    unfold finalizeOpts
    rw [h]
  have hr := addAllRun_error sh options e pipe consumed hf
  exact ⟨hr, by rw [hr]; rfl⟩

theorem chunker_error_fails_before_lock_witness :
    addAllRun false { chunker := some "bad-spec" } ⟨[], false⟩ 0 = [AddEvent.errorRaised] ∧
    countAcquires (addAllRun false { chunker := some "bad-spec" } ⟨[], false⟩ 0) = 0 :=
  chunker_error_fails_before_lock false { chunker := some "bad-spec" } ⟨[], false⟩ 0
    "InvalidChunkerSpec" rfl

/-- C3: the emitted entry's CID is the version-1 encoding of the importer's
CID exactly when the effective `cidVersion` is 1 and is the importer's CID
unchanged otherwise; and whenever a truthy hash algorithm other than
`sha2-256` is requested, finalization forces the effective `cidVersion` to 1
(in particular when `cidVersion: 0` was explicitly requested, since only an
explicit 1 escapes the forcing and then the conclusion already holds). -/
theorem output_cid_version_rule (sh : Bool) (options : AddOptions) (opts : Opts)
    (file : ImportedNode) (h : finalizeOpts sh options = .ok opts) :
    (transformOne opts file).cid
        = (if opts.cidVersion = some 1 then file.cid.toV1 else file.cid) ∧
    (hashAlgTruthy options.hashAlg = true → options.hashAlg ≠ some "sha2-256" →
      opts.cidVersion = some 1) := by
  constructor
  · by_cases hv : opts.cidVersion = some 1 <;> simp [transformOne, hv]
  · intro ht hne
    have hf := (finalizeOpts_ok_fields sh options opts h).1
    by_cases hc : options.cidVersion = some 1
    · rw [hf, hc]
      simp
    · rw [hf]
      simp [ht, hne, hc]

def hashOptions : AddOptions := { hashAlg := some "sha2-512", cidVersion := some 0 }

def hashOpts : Opts :=
  { shardSplitThreshold := none, cidVersion := some 1, hashAlg := some "sha2-512",
    onlyHash := false, pin := none, rawLeaves := false, wrapWithDirectory := false,
    preload := none, progress := false, strategy := "balanced", trickle := none,
    chunker := .fixed 262144 }

def sampleNode : ImportedNode :=
  { cid := { version := 0, payload := "abc" }, path := "", size := 3, unixfs := none }

theorem output_cid_version_rule_witness :
    ((transformOne hashOpts sampleNode).cid
        = (if hashOpts.cidVersion = some 1 then sampleNode.cid.toV1 else sampleNode.cid)) ∧
    hashOpts.cidVersion = some 1 := by
  have h := output_cid_version_rule false hashOptions hashOpts sampleNode rfl
  exact ⟨h.1, h.2 (by decide) (by decide)⟩

/-- C5: the Entry Transform derives the output path from an imported node as
follows — a non-empty node path is used unchanged; an empty (absent) path
becomes the empty string when `wrapWithDirectory` is set, and otherwise the
string form of the already version-adjusted CID (the CID carried by the
emitted entry itself). -/
theorem entry_path_derivation (opts : Opts) (file : ImportedNode) :
    (transformOne opts file).path
      = (if file.path = "" then
           (if opts.wrapWithDirectory = true then ""
            else (transformOne opts file).cid.toString)
         else file.path) ∧
    (transformOne opts file).cid
      = (if opts.cidVersion = some 1 then file.cid.toV1 else file.cid) := by
  constructor
  · by_cases hp : file.path = "" <;> by_cases hw : opts.wrapWithDirectory = true <;>
      simp [transformOne, hp, hw]
  · by_cases hv : opts.cidVersion = some 1 <;> simp [transformOne, hv]

/-- C10: the strategy forwarded to the importer never comes from the caller's
options: for every caller-supplied strategy field the finalized options are
the same, the forwarded strategy is `'trickle'` exactly when the trickle
flag is set and `'balanced'` otherwise, and the trickle flag itself is
deleted (absent from the finalized options). -/
theorem strategy_not_caller_supplied (sh : Bool) (options : AddOptions) (opts : Opts)
    (h : finalizeOpts sh options = .ok opts) :
    opts.strategy = (if options.trickle then "trickle" else "balanced") ∧
    opts.trickle = none ∧
    (∀ s : Option String, finalizeOpts sh { options with strategy := s } = .ok opts) := by
  refine ⟨(finalizeOpts_ok_fields sh options opts h).2.1,
    (finalizeOpts_ok_fields sh options opts h).2.2.1, ?_⟩
  intro s
  rw [finalizeOpts_ignores_strategy]
  exact h

def trickleOptions : AddOptions := { trickle := true, strategy := some "caller-strategy" }

def trickleOpts : Opts :=
  { shardSplitThreshold := none, cidVersion := none, hashAlg := none, onlyHash := false,
    pin := none, rawLeaves := false, wrapWithDirectory := false, preload := none,
    progress := false, strategy := "trickle", trickle := none, chunker := .fixed 262144 }

theorem strategy_not_caller_supplied_witness :
    trickleOpts.strategy = (if trickleOptions.trickle then "trickle" else "balanced") ∧
    trickleOpts.trickle = none ∧
    finalizeOpts false { trickleOptions with strategy := some "another-strategy" }
      = .ok trickleOpts := by
  have h := strategy_not_caller_supplied false trickleOptions trickleOpts rfl
  exact ⟨h.1, h.2.1, h.2.2 (some "another-strategy")⟩

/-- C2: in the pin stage, `pin.add` is called on an entry's CID with options
`{ preload: false, lock: false }`, the call immediately preceding (being
awaited before) the yielding of that entry, exactly for those entries with
`shouldPin`; and `shouldPin` holds precisely when pinning is enabled (the
pin option is absent/null or `true`), the entry's path contains no `'/'`,
and hash-only mode is not set; in particular with `pin: false` or
`onlyHash: true` the trace contains no pin call at all. -/
theorem pin_stage_pins_roots (opts : Opts) (source : List OutputEntry) :
    pinFileTrace opts source
      = source.flatMap (fun f =>
          (if shouldPin opts f then [StreamEvent.pinCall f.cid false false] else [])
            ++ [StreamEvent.yieldEntry f]) ∧
    (∀ f : OutputEntry,
      (shouldPin opts f = true ↔
        ((opts.pin = none ∨ opts.pin = some true) ∧ f.path.toList.contains '/' = false ∧
          opts.onlyHash = false))) ∧
    (∀ s2 : List OutputEntry,
      pinCallCount (pinFileTrace { opts with pin := some false } s2) = 0) ∧
    (∀ s2 : List OutputEntry,
      pinCallCount (pinFileTrace { opts with onlyHash := true } s2) = 0) := by
  refine ⟨?_, ?_, ?_, ?_⟩
  · induction source with
    | nil => rfl
    | cons f fs ih => simp [pinFileTrace, ih]
  · intro f
    cases hp : opts.pin with
    | none => cases ho : opts.onlyHash <;> simp [shouldPin, isRootDir, hp, ho]
    | some b => cases b <;> cases ho : opts.onlyHash <;> simp [shouldPin, isRootDir, hp, ho]
  · intro s2
    exact pinCallCount_zero _ s2 (fun f => by simp [shouldPin])
  · intro s2
    exact pinCallCount_zero _ s2 (fun f => by simp [shouldPin])

/-- C4: in the preload stage, the preload collaborator is called on an
entry's CID (the call fired before the entry is yielded, its result never
awaited) exactly for those entries with `shouldPreload`; `shouldPreload`
holds precisely when the entry is a pipeline root under the wrap-aware
predicate — path equal to the empty string when the entry has no path or
`wrapWithDirectory` is set, otherwise a path containing no `'/'` — and
hash-only mode is not set and the preload option is not strictly `false`;
in particular with `onlyHash: true` or `preload: false` the trace contains
no preload call at all. -/
theorem preload_stage_preloads_roots (opts : Opts) (source : List OutputEntry) :
    preloadFileTrace opts source
      = source.flatMap (fun f =>
          (if shouldPreload opts f then [StreamEvent.preloadCall f.cid] else [])
            ++ [StreamEvent.yieldEntry f]) ∧
    (∀ f : OutputEntry,
      (shouldPreload opts f = true ↔
        (isRootFile opts f = true ∧ opts.onlyHash = false ∧ opts.preload ≠ some false))) ∧
    (∀ f : OutputEntry,
      (isRootFile opts f = true ↔
        (if f.path = "" ∨ opts.wrapWithDirectory = true then f.path = ""
         else f.path.toList.contains '/' = false))) ∧
    (∀ s2 : List OutputEntry,
      preloadCallCount (preloadFileTrace { opts with onlyHash := true } s2) = 0) ∧
    (∀ s2 : List OutputEntry,
      preloadCallCount (preloadFileTrace { opts with preload := some false } s2) = 0) := by
  refine ⟨?_, ?_, ?_, ?_, ?_⟩
  · induction source with
    | nil => rfl
    | cons f fs ih => simp [preloadFileTrace, ih]
  · intro f
    cases hr : isRootFile opts f <;> cases ho : opts.onlyHash <;>
      cases hp : opts.preload == some false <;>
      simp_all [shouldPreload]
  · intro f
    by_cases hp : f.path = "" <;> by_cases hw : opts.wrapWithDirectory = true <;>
      simp [isRootFile, hp, hw]
  · intro s2
    exact preloadCallCount_zero _ s2 (fun f => by simp [shouldPreload])
  · intro s2
    exact preloadCallCount_zero _ s2 (fun f => by simp [shouldPreload])

/-- C6: a failing preload collaborator never changes what `addAll` yields:
the pipeline's output entries are the same for any two preload outcome
assignments (in particular, the all-successful one), because the stage fires
the call and yields the entry without consuming the call's result. -/
theorem preload_failure_nonfatal (failing failing2 : Cid → Bool) (opts : Opts)
    (files : List ImportedNode) (source : List OutputEntry) :
    addAllEntriesWithPreload failing opts files
        = addAllEntriesWithPreload failing2 opts files ∧
    (preloadFileRun failing opts source).2 = source := by
  refine ⟨?_, preloadFileRun_entries failing opts source⟩
  unfold addAllEntriesWithPreload
  rw [preloadFileRun_entries, preloadFileRun_entries]

/-- C8: the wrapped progress callback reports cumulative byte totals — for
any sequence of per-event byte counts, the original callback is invoked once
per event, the i-th invocation reporting the sum of the first i+1 counts,
starting from a total of 0. -/
theorem progress_reports_cumulative (bs : List Nat) (i : Nat) (h : i < bs.length) :
    (progressAccumulate 0 bs).length = bs.length ∧
    (progressAccumulate 0 bs).getD i 0 = (bs.take (i + 1)).sum := by
  refine ⟨progressAccumulate_length 0 bs, ?_⟩
  simpa using progressAccumulate_getD 0 bs i h

theorem progress_reports_cumulative_witness :
    (progressAccumulate 0 [100, 50, 25]).length = [100, 50, 25].length ∧
    (progressAccumulate 0 [100, 50, 25]).getD 2 0 = ([100, 50, 25].take 3).sum :=
  progress_reports_cumulative [100, 50, 25] 2 (by decide)

/-- C9: the pipeline yields exactly one output entry per imported node, in
the same relative order — the composition of the Entry Transform, the
preload stage and the pin stage is the per-item map of the Entry Transform,
so no stage drops, duplicates or reorders entries. -/
theorem pipeline_preserves_entries (opts : Opts) (files : List ImportedNode) :
    addAllEntries opts files = files.map (transformOne opts) ∧
    (addAllEntries opts files).length = files.length := by
  have h : addAllEntries opts files = files.map (transformOne opts) := by
    unfold addAllEntries
    rw [entriesOf_preloadFileTrace, entriesOf_pinFileTrace]
    rfl
  exact ⟨h, by rw [h]; simp⟩
